import Mathlib

/-!
Verification development for the `pccg-rs` data-access layer.

This file shallowly embeds the parts of the repository that the checked
properties talk about:

* the decimal-string wire convention for integers used by the document codec
  (`u32::to_string` / `str::parse` in `src/models/src/user.rs` and
  `src/src/models/stats.rs`),
* the `Document` / `DocumentField` wire model and the entity codecs for
  `User` and `Card` (`src/storage/src/firestore.rs`, `src/models/src/*.rs`),
* the `Transaction` state machine with its write buffer, read cache, commit,
  abort and drop-triggered cleanup (`src/storage/src/firestore.rs`),
* the transactional client operations `get`, `batch_get`, `list`, `upsert`,
  `delete` with their network effects, modelled against a response oracle,
* the engine-side error taxonomy and the consumer retry loop
  (`src/engine/src/error.rs`, `src/engine/src/api.rs`),
* the OAuth background-refresh delay computation (`Firestore::new`).

Modelling conventions:

* Firestore resource names are built by joining segments with `/` and taken
  apart by splitting on `/`; since every segment the code produces is
  slash-free, names are modelled as segment lists (`List String`), with
  `format!("{}/{}/{}", p, c, id)` becoming `p ++ [c, idStr]` and
  `name.split('/').next_back()` becoming `List.getLast?`.  The empty string
  name produced by `Document::new` splits into one empty segment, so it is
  modelled as `[""]`.
* `Uuid` values are modelled as naturals; `Uuid::to_string` is decimal
  rendering and `Uuid::parse_str` is decimal parsing.  This preserves the
  two facts the code relies on: rendering is injective and slash-free, and
  parsing inverts rendering (and fails on the empty string).
* `f64` is modelled as `Rat` (no rounding arithmetic occurs in the embedded
  code, only storage and retrieval), `DateTime<Utc>` as an `Int` timestamp,
  `u32`/`i32` as `Nat`/`Int` with explicit range conditions where parsing
  imposes them.
* `HashMap` values are modelled as association lists with insert-replaces
  semantics; the embedded code only inserts and looks up.
* Network interaction is modelled by explicit effect lists plus response
  oracles passed as arguments; a panic (`unwrap` on `None`) is a dedicated
  outcome constructor, distinct from error returns.
-/

/-! ## Association lists (model of `HashMap` insert / lookup) -/

def alookup {κ β : Type} [DecidableEq κ] : List (κ × β) → κ → Option β
  | [], _ => none
  | (k, v) :: rest, k' => if k = k' then some v else alookup rest k'

/-- Model of `HashMap::insert`.  A later binding shadows an earlier one under
`alookup` (which takes the first match), so prepending realises
insert-replaces semantics for every lookup. -/
def aput {κ β : Type} [DecidableEq κ] (m : List (κ × β)) (k : κ) (v : β) :
    List (κ × β) :=
  (k, v) :: m

theorem alookup_aput {κ β : Type} [DecidableEq κ] (m : List (κ × β))
    (k k' : κ) (v : β) :
    alookup (aput m k v) k' = if k = k' then some v else alookup m k' := by
  rfl

/-! ## Decimal rendering and parsing

Models `u32::to_string` / `i32::to_string` and `str::parse::<u32>` /
`str::parse::<i32>`, the decimal-string wire convention of the codec. -/

/-- Little-endian decimal digits, fuel-bounded so the recursion is
structural; `natDigits` supplies enough fuel. -/
def natDigitsAux : Nat → Nat → List Nat
  | 0, _ => []
  | _, 0 => []
  | fuel + 1, n + 1 => ((n + 1) % 10) :: natDigitsAux fuel ((n + 1) / 10)

def natDigits (n : Nat) : List Nat := natDigitsAux n n

theorem ofDigits_natDigitsAux :
    ∀ (fuel n : Nat), n ≤ fuel → Nat.ofDigits 10 (natDigitsAux fuel n) = n := by
  intro fuel
  induction fuel with
  | zero =>
    intro n hn
    interval_cases n
    rfl
  | succ fuel ih =>
    intro n hn
    match n with
    | 0 => rfl
    | m + 1 =>
      have hdiv : (m + 1) / 10 ≤ fuel := by
        have : (m + 1) / 10 < m + 1 := Nat.div_lt_self (Nat.succ_pos m) (by norm_num)
        omega
      simp only [natDigitsAux, Nat.ofDigits_cons, ih _ hdiv]
      omega

theorem ofDigits_natDigits (n : Nat) : Nat.ofDigits 10 (natDigits n) = n :=
  ofDigits_natDigitsAux n n (Nat.le_refl n)

theorem natDigitsAux_lt :
    ∀ (fuel n d : Nat), d ∈ natDigitsAux fuel n → d < 10 := by
  intro fuel
  induction fuel with
  | zero => intro n d h; simp [natDigitsAux] at h
  | succ fuel ih =>
    intro n d h
    match n with
    | 0 => simp [natDigitsAux] at h
    | m + 1 =>
      simp only [natDigitsAux, List.mem_cons] at h
      rcases h with h | h
      · subst h; exact Nat.mod_lt _ (by norm_num)
      · exact ih _ _ h

theorem natDigits_lt (n d : Nat) (h : d ∈ natDigits n) : d < 10 :=
  natDigitsAux_lt n n d h

theorem natDigits_ne_nil (n : Nat) (h : 0 < n) : natDigits n ≠ [] := by
  match n with
  | m + 1 => simp [natDigits, natDigitsAux]

def digitToChar (d : Nat) : Char := Char.ofNat (48 + d)

def charToDigit? (c : Char) : Option Nat :=
  if 48 ≤ c.toNat ∧ c.toNat ≤ 57 then some (c.toNat - 48) else none

theorem charToDigit_digitToChar {d : Nat} (h : d < 10) :
    charToDigit? (digitToChar d) = some d := by
  interval_cases d <;> decide

/-- Model of `u32::to_string` (and of `Uuid::to_string`, identifiers being
abstracted to naturals): most-significant-first decimal rendering. -/
def natToString (n : Nat) : String :=
  if n = 0 then "0" else String.mk ((natDigits n).reverse.map digitToChar)

def digitsOfChars? : List Char → Option (List Nat)
  | [] => some []
  | c :: cs =>
    match charToDigit? c, digitsOfChars? cs with
    | some d, some ds => some (d :: ds)
    | _, _ => none

/-- Model of `str::parse::<u64>`-style unbounded decimal parsing (and of
`Uuid::parse_str`); range-restricted variants refine it below. -/
def stringToNat? (s : String) : Option Nat :=
  if s.data.isEmpty then none
  else (digitsOfChars? s.data).map (fun ds => Nat.ofDigits 10 ds.reverse)

theorem digitsOfChars_map_digitToChar (l : List Nat) (h : ∀ d ∈ l, d < 10) :
    digitsOfChars? (l.map digitToChar) = some l := by
  induction l with
  | nil => rfl
  | cons d rest ih =>
    have hd : d < 10 := h d (List.mem_cons_self d rest)
    have hrest : ∀ x ∈ rest, x < 10 := fun x hx => h x (List.mem_cons_of_mem d hx)
    simp [digitsOfChars?, charToDigit_digitToChar hd, ih hrest]

theorem stringToNat_natToString (n : Nat) :
    stringToNat? (natToString n) = some n := by
  by_cases h0 : n = 0
  · subst h0; decide
  · have hpos : 0 < n := Nat.pos_of_ne_zero h0
    have hne : natDigits n ≠ [] := natDigits_ne_nil n hpos
    have hlt : ∀ d ∈ (natDigits n).reverse, d < 10 := by
      intro d hd
      exact natDigits_lt n d (List.mem_reverse.mp hd)
    simp only [natToString, h0, if_false, stringToNat?]
    have hnonempty : ¬ ((natDigits n).reverse.map digitToChar).isEmpty = true := by
      simp [List.isEmpty_iff, hne]
    rw [if_neg hnonempty, digitsOfChars_map_digitToChar _ hlt]
    simp [ofDigits_natDigits]

theorem natToString_all_digits (n : Nat) :
    ∀ c ∈ (natToString n).data, (charToDigit? c).isSome := by
  intro c hc
  by_cases h0 : n = 0
  · subst h0
    simp only [natToString, if_pos rfl] at hc
    have : c = '0' := by
      cases hc with
      | head => rfl
      | tail _ h => cases h
    subst this; decide
  · simp only [natToString, h0, if_false] at hc
    have hc' : c ∈ (natDigits n).reverse.map digitToChar := hc
    rcases List.mem_map.mp hc' with ⟨d, hd, rfl⟩
    have : d < 10 := natDigits_lt n d (List.mem_reverse.mp hd)
    rw [charToDigit_digitToChar this]
    rfl

/-- Model of `i32::to_string`: optional sign then decimal digits. -/
def intToString (i : Int) : String :=
  if i < 0 then "-" ++ natToString i.natAbs else natToString i.natAbs

/-- Model of signed decimal parsing as done by `str::parse::<i64>`-style
code; the `i32` range restriction is applied by `i32Parse?`. -/
def stringToInt? (s : String) : Option Int :=
  if s.data.head? = some '-' then
    (stringToNat? (String.mk s.data.tail)).map (fun n => -(n : Int))
  else
    (stringToNat? s).map (fun n => (n : Int))

theorem stringToInt_intToString (i : Int) :
    stringToInt? (intToString i) = some i := by
  by_cases hneg : i < 0
  · have hdata : ("-" ++ natToString i.natAbs).data
        = '-' :: (natToString i.natAbs).data := by
      cases natToString i.natAbs; rfl
    simp only [intToString, if_pos hneg, stringToInt?, hdata]
    simp only [List.head?, List.tail, if_pos rfl]
    have heta : String.mk (natToString i.natAbs).data = natToString i.natAbs := rfl
    rw [heta, stringToNat_natToString]
    show some (-((i.natAbs : Nat) : Int)) = some i
    congr 1
    omega
  · have hh : ¬ (natToString i.natAbs).data.head? = some '-' := by
      intro hcontra
      have hmem : ('-' : Char) ∈ (natToString i.natAbs).data := by
        cases hd : (natToString i.natAbs).data with
        | nil => rw [hd] at hcontra; simp at hcontra
        | cons c rest =>
          rw [hd] at hcontra
          simp only [List.head?] at hcontra
          injection hcontra with hc
          subst hc
          exact List.mem_cons_self _ _
      have hsome := natToString_all_digits i.natAbs '-' hmem
      have : (charToDigit? '-').isSome = false := by decide
      rw [this] at hsome
      cases hsome
    simp only [intToString, if_neg hneg, stringToInt?, if_neg hh,
      stringToNat_natToString]
    have : ((i.natAbs : Nat) : Int) = i := by omega
    simp [this]

/-- Model of `str::parse::<u32>`: decimal parse plus `u32` range. -/
def u32Parse? (s : String) : Option Nat :=
  (stringToNat? s).bind (fun n => if n < 2 ^ 32 then some n else none)

theorem u32Parse_natToString (n : Nat) (h : n < 2 ^ 32) :
    u32Parse? (natToString n) = some n := by
  have h' : n < 4294967296 := by omega
  simp [u32Parse?, stringToNat_natToString, h']

/-- Model of `str::parse::<i32>`: signed decimal parse plus `i32` range. -/
def i32Parse? (s : String) : Option Int :=
  (stringToInt? s).bind
    (fun i => if -(2 ^ 31) ≤ i ∧ i < 2 ^ 31 then some i else none)

theorem i32Parse_intToString (i : Int) (h1 : -(2 ^ 31) ≤ i) (h2 : i < 2 ^ 31) :
    i32Parse? (intToString i) = some i := by
  have h1' : -2147483648 ≤ i := by omega
  have h2' : i < 2147483648 := by omega
  simp [i32Parse?, stringToInt_intToString, h1', h2']

/-! ## Document wire model (`src/storage/src/firestore.rs`) -/

/-- Wire-level tagged value (`DocumentField`); the payloads of
`DocumentArrayValue` / `DocumentMapValue` are inlined.  `f64` is modelled as
`Rat`, `DateTime<Utc>` as an `Int` timestamp. -/
inductive DocumentField where
  | NullValue
  | ArrayValue (values : Option (List DocumentField))
  | DoubleValue (v : Rat)
  | IntegerValue (s : String)
  | MapValue (fields : Option (List (String × DocumentField)))
  | StringValue (s : String)
  | TimestampValue (t : Int)

/-- Wire-level record; `create_time` / `update_time` are deserialize-only in
the source and never read by the embedded operations, so they are omitted. -/
structure Document where
  name : List String
  fields : List (String × DocumentField)

/-- Model of `Document::new`: the name starts as the empty string, which
splits into a single empty segment. -/
def Document.new (fields : List (String × DocumentField)) : Document :=
  { name := [""], fields }

/-- Model of `Document::extract_id`: take the last path segment of the
resource name and parse it as an identifier. -/
def Document.extractId? (d : Document) : Except String Nat :=
  match d.name.getLast? with
  | some id =>
    match stringToNat? id with
    | some u => .ok u
    | none => .error "Unable to convert id to a uuid"
  | none => .error "Invalid name"

/-- Model of `DocumentField::extract_double`: a `DoubleValue` is returned as
is; an `IntegerValue` is tolerated because the remote service collapses an
integral double into an integer field, and is parsed as an `i32` and cast
back to a double. -/
def DocumentField.extractDouble : DocumentField → Except String Rat
  | .DoubleValue r => .ok r
  | .IntegerValue s =>
    match i32Parse? s with
    | some i => .ok (i : Rat)
    | none => .error "Error casting from IntegerValue"
  | _ => .error "Error parsing DoubleValue"

/-- Model of `DocumentField::extract_string`. -/
def DocumentField.extractString : DocumentField → Except String String
  | .StringValue s => .ok s
  | _ => .error "Error parsing StringValue"

/-- Model of `Document::extract_string`. -/
def Document.extractString (d : Document) (fieldName : String) :
    Except String String :=
  match alookup d.fields fieldName with
  | some f => f.extractString
  | none => .error "Missing field"

/-! ## Entity codecs (`src/models/src/user.rs`, `src/models/src/card.rs`,
`src/src/models/stats.rs`) -/

structure StatsI where
  physical : Int
  mental : Int
  tactical : Int
deriving DecidableEq

structure StatsF where
  physical : Rat
  mental : Rat
  tactical : Rat
deriving DecidableEq

/-- The per-key block repeated three times in `TryFrom<&DocumentField> for
StatsI`: the key must be present, hold an `IntegerValue`, and parse as `i32`. -/
def statIntField? (fields : List (String × DocumentField)) (key : String) :
    Except String Int :=
  match alookup fields key with
  | some (.IntegerValue s) =>
    match i32Parse? s with
    | some i => .ok i
    | none => .error "Error casting to i32"
  | some _ => .error "Error parsing IntegerValue"
  | none => .error "Missing field in map"

/-- The per-key block repeated three times in `TryFrom<&DocumentField> for
StatsF`: the key must be present and hold a `DoubleValue` (note: no
integer-field tolerance here, unlike `extract_double`). -/
def statDoubleField? (fields : List (String × DocumentField)) (key : String) :
    Except String Rat :=
  match alookup fields key with
  | some (.DoubleValue r) => .ok r
  | some _ => .error "Error parsing DoubleValue"
  | none => .error "Missing field in map"

/-- Model of `TryFrom<&DocumentField> for StatsI`; a map with absent fields
falls back to defaults (with a warning) as in the source. -/
def StatsI.tryFromField : DocumentField → Except String StatsI
  | .MapValue (some fields) =>
    match statIntField? fields "physical", statIntField? fields "mental",
        statIntField? fields "tactical" with
    | .ok p, .ok m, .ok t => .ok ⟨p, m, t⟩
    | .error e, _, _ => .error e
    | _, .error e, _ => .error e
    | _, _, .error e => .error e
  | .MapValue none => .ok ⟨0, 0, 0⟩
  | _ => .error "Expected DocumentMapValue to convert to StatsI"

/-- Model of `TryFrom<&DocumentField> for StatsF`. -/
def StatsF.tryFromField : DocumentField → Except String StatsF
  | .MapValue (some fields) =>
    match statDoubleField? fields "physical", statDoubleField? fields "mental",
        statDoubleField? fields "tactical" with
    | .ok p, .ok m, .ok t => .ok ⟨p, m, t⟩
    | .error e, _, _ => .error e
    | _, .error e, _ => .error e
    | _, _, .error e => .error e
  | .MapValue none => .ok ⟨0, 0, 0⟩
  | _ => .error "Expected DocumentMapValue to convert to StatsF"

/-- Model of `Into<DocumentField> for StatsI`. -/
def StatsI.toField (s : StatsI) : DocumentField :=
  .MapValue (some
    [("physical", .IntegerValue (intToString s.physical)),
     ("mental", .IntegerValue (intToString s.mental)),
     ("tactical", .IntegerValue (intToString s.tactical))])

/-- Model of `Into<DocumentField> for StatsF`. -/
def StatsF.toField (s : StatsF) : DocumentField :=
  .MapValue (some
    [("physical", .DoubleValue s.physical),
     ("mental", .DoubleValue s.mental),
     ("tactical", .DoubleValue s.tactical)])

structure User where
  id : Nat
  currency : Nat
  daily_last_claimed : Int
  staged_card : Option Nat
deriving DecidableEq

/-- Model of `Into<Document> for User`: note that the resulting document's
name is the empty one from `Document::new`; the id is not stored in any
field. -/
def User.toDocument (u : User) : Document :=
  Document.new
    ([("currency", .IntegerValue (natToString u.currency)),
      ("daily_last_claimed", .TimestampValue u.daily_last_claimed)] ++
      (match u.staged_card with
       | some c => [("staged_card", .StringValue (natToString c))]
       | none => []))

/-- Outcome of a fallible Rust conversion that can also `unwrap()`-panic. -/
inductive DecodeOutcome (α : Type) where
  | ok (value : α)
  | err (msg : String)
  | panicked
deriving DecidableEq

/-- Model of `TryFrom<Document> for User`.  The id is the last path segment
of the name, parsed with `unwrap()` (a parse failure is a panic, not an
error); a malformed `staged_card` string is likewise a panic; any missing or
wrongly-tagged required field yields the single conversion error. -/
def User.fromDocument (value : Document) : DecodeOutcome User :=
  match value.name.getLast? with
  | none => .panicked
  | some idStr =>
    match alookup value.fields "currency" with
    | some (.IntegerValue currency) =>
      match u32Parse? currency with
      | some currency =>
        match alookup value.fields "daily_last_claimed" with
        | some (.TimestampValue daily) =>
          match
            (match alookup value.fields "staged_card" with
             | some (.StringValue s) =>
               match stringToNat? s with
               | some c => DecodeOutcome.ok (some c)
               | none => DecodeOutcome.panicked
             | _ => DecodeOutcome.ok none) with
          | .ok staged =>
            match stringToNat? idStr with
            | some id =>
              .ok { id := id, currency := currency,
                    daily_last_claimed := daily, staged_card := staged }
            | none => .panicked
          | _ => .panicked
        | _ => .err "Could not convert Document to User"
      | none => .err "Could not convert Document to User"
    | _ => .err "Could not convert Document to User"

structure Card where
  id : Nat
  name : String
  description : String
  image_uri : String
  stat_base : StatsI
  stat_multiplier : StatsF
deriving DecidableEq

/-- Model of `Into<Document> for Card`; as for `User`, the name stays the
empty one from `Document::new`. -/
def Card.toDocument (c : Card) : Document :=
  Document.new
    [("name", .StringValue c.name),
     ("description", .StringValue c.description),
     ("image_uri", .StringValue c.image_uri),
     ("stat_base", c.stat_base.toField),
     ("stat_multiplier", c.stat_multiplier.toField)]

/-- Model of `TryFrom<Document> for Card`. -/
def Card.fromDocument (value : Document) : Except String Card := do
  let id ← value.extractId?
  let name ← value.extractString "name"
  let description ← value.extractString "description"
  let image_uri ← value.extractString "image_uri"
  let stat_base ←
    match alookup value.fields "stat_base" with
    | some df => StatsI.tryFromField df
    | none => Except.error "Missing field stat_base"
  let stat_multiplier ←
    match alookup value.fields "stat_multiplier" with
    | some df => StatsF.tryFromField df
    | none => Except.error "Missing field stat_multiplier"
  return { id := id, name := name, description := description,
           image_uri := image_uri, stat_base := stat_base,
           stat_multiplier := stat_multiplier }

/-! ## Storage errors (`src/storage/src/error.rs`) -/

/-- Variants of `storage::Error`; the `Transaction` variant is the one
constructed by `firestore.rs` for write contention and matched by the
engine's retry classification. -/
inductive StorageError where
  | Conflict (msg : String)
  | Io (msg : String)
  | Hyper (msg : String)
  | Jwt (msg : String)
  | OAuth (msg : String)
  | Other (msg : String)
  | Serialization (msg : String)
  | Transaction (msg : String)
deriving DecidableEq

inductive TransactionError where
  | InvalidState
deriving DecidableEq

/-- Model of `Into<storage::Error> for TransactionError`:
`Error::Other(format!("{:?}", self))`. -/
def TransactionError.intoStorage : TransactionError → StorageError
  | .InvalidState => .Other "InvalidState"

/-! ## Writes, network effects, transaction state machine
(`src/storage/src/firestore.rs`) -/

/-- Model of the `Write` request payload. -/
inductive Write where
  | Update (update : Document)
  | Delete (delete : List String)

/-- One observable outgoing network request.  Each embedded operation
returns the list of requests it issues, in order. -/
inductive NetEffect where
  | getReq (name : List String) (txId : Option String)
  | batchGetReq (names : List (List String)) (txId : Option String)
  | commitReq (writes : List Write) (txId : String)
  | rollbackReq (database : List String) (txId : String)
  | patchReq (name : List String) (doc : Document)
  | deleteReq (name : List String)

/-- Model of the `Transaction` struct: the server-issued id, the read cache,
and the write buffer (`Option` because finalization `take()`s it).  The
handle fields (HTTP client, token, drop channel) are not data. -/
structure Transaction where
  database : List String
  readCache : List (List String × Document)
  transactionId : String
  writes : Option (List Write)

/-- Model of `Transaction::new`: fresh cache, an empty (present) write
buffer.  Note that the transaction kind is not recorded anywhere. -/
def Transaction.new (database : List String) (id : String) : Transaction :=
  { database := database, readCache := [], transactionId := id,
    writes := some [] }

/-- Model of `Transaction::append_write`: push onto the buffer while it is
present, invalid-state error once it has been taken. -/
def Transaction.appendWrite (t : Transaction) (w : Write) :
    Except TransactionError Transaction :=
  match t.writes with
  | some v => .ok { t with writes := some (v ++ [w]) }
  | none => .error .InvalidState

/-- Model of `Transaction::cache_read`. -/
def Transaction.cacheRead (t : Transaction) (name : List String)
    (doc : Document) : Transaction :=
  { t with readCache := aput t.readCache name doc }

/-- Status of the remote `:commit` call, as distinguished by the source. -/
inductive CommitStatus where
  | okStatus
  | conflict
  | otherStatus (code : Nat)
deriving DecidableEq

/-- Model of `Transaction::commit_internal`: always issues the commit
request; `409 CONFLICT` becomes the retryable `Transaction` error, any other
non-success status a generic error. -/
def Transaction.commitInternal (txId : String) (writes : List Write)
    (status : CommitStatus) : Except StorageError Unit × List NetEffect :=
  ( match status with
    | .okStatus => .ok ()
    | .conflict => .error (.Transaction "Document contention, try again later")
    | .otherStatus _ => .error (.Other "Non-success status code in commit"),
    [NetEffect.commitReq writes txId] )

/-- Model of `Transaction::commit`: if the buffer was already taken, log a
warning and return `Ok(())` without any request; otherwise take the buffer
and send it. -/
def Transaction.commit (t : Transaction) (status : CommitStatus) :
    Except StorageError Unit × Transaction × List NetEffect :=
  match t.writes with
  | none => (.ok (), t, [])
  | some w =>
    let out := Transaction.commitInternal t.transactionId w status
    (out.1, { t with writes := none }, out.2)

/-- Model of `Transaction::abort`: if the buffer was already taken, log a
warning and do nothing; otherwise take it and enqueue a rollback on the
background cleanup channel. -/
def Transaction.abort (t : Transaction) : Transaction × List NetEffect :=
  match t.writes with
  | none => (t, [])
  | some _ =>
    ({ t with writes := none },
     [NetEffect.rollbackReq t.database t.transactionId])

/-- Model of `impl Drop for Transaction`: enqueue a rollback only if the
buffer is still present at destruction. -/
def Transaction.dropRun (t : Transaction) : List NetEffect :=
  match t.writes with
  | some _ => [NetEffect.rollbackReq t.database t.transactionId]
  | none => []

inductive TransactionType where
  | ReadOnly
  | ReadWrite
deriving DecidableEq

/-- Model of `TransactionOptions` as serialized into the begin request. -/
inductive TransactionOptions where
  | ReadOnly (read_time : Int)
  | ReadWrite (retry_transaction : Option String)
deriving DecidableEq

/-- Options built by `FirestoreClient::begin_transaction`: ReadOnly pins the
current time as the snapshot read time; ReadWrite sets no retry token. -/
def beginTransactionOptions (ty : TransactionType) (now : Int) :
    TransactionOptions :=
  match ty with
  | .ReadOnly => .ReadOnly now
  | .ReadWrite => .ReadWrite none

/-- Model of `FirestoreClient::begin_transaction` followed by the successful
`Firestore::begin_transaction` response: the request carries the options,
and the returned handle is `Transaction::new` regardless of the kind. -/
def beginTransaction (ty : TransactionType) (now : Int)
    (database : List String) (serverTxId : String) :
    TransactionOptions × Transaction :=
  (beginTransactionOptions ty now, Transaction.new database serverTxId)

/-! ## Transactional client operations -/

/-- Collection scope held by a `FirestoreClient`. -/
structure FirestoreClient where
  parent_path : List String
  collection_id : String

/-- The fully-qualified document resource name
`format!("{}/{}/{}", parent_path, collection_id, id)`. -/
def FirestoreClient.docName (fc : FirestoreClient) (id : Nat) : List String :=
  fc.parent_path ++ [fc.collection_id, natToString id]

/-- Model of the transaction branch of `FirestoreClient::upsert`: set the
document's name to the fully-qualified path and buffer a replace
(`Write::Update`); no network request is issued. -/
def FirestoreClient.upsertTx (fc : FirestoreClient) (id : Nat)
    (doc : Document) (t : Transaction) :
    Except StorageError Transaction × List NetEffect :=
  let name := fc.docName id
  match t.appendWrite (Write.Update { doc with name := name }) with
  | .ok t' => (.ok t', [])
  | .error e => (.error e.intoStorage, [])

/-- Model of the transaction branch of `FirestoreClient::delete`: buffer a
`Write::Delete` of the fully-qualified path; no network request is issued. -/
def FirestoreClient.deleteTx (fc : FirestoreClient) (id : Nat)
    (t : Transaction) : Except StorageError Transaction × List NetEffect :=
  let name := fc.docName id
  match t.appendWrite (Write.Delete name) with
  | .ok t' => (.ok t', [])
  | .error e => (.error e.intoStorage, [])

/-- Remote answer to a single-document GET. -/
inductive GetResponse where
  | okDoc (d : Document)
  | notFound
  | otherStatus (code : Nat)

/-- Result of `Firestore::get`: the returned value, the possibly-updated
transaction, and the issued requests. -/
structure GetResult (α : Type) where
  result : Except StorageError (Option α)
  tx : Option Transaction
  effects : List NetEffect

/-- Model of `Firestore::get`.  Cache first: a cache hit that decodes
successfully returns without touching the network; a cache hit that fails
to decode is logged and falls through to the network path (as in the
source).  A fetched document is cached before decoding; a decode failure
after the fetch is an error; 404 is `Ok(None)`; any other status is an
error. -/
def firestoreGet {α : Type} (decode : Document → Except String α)
    (name : List String) (t? : Option Transaction) (resp : GetResponse) :
    GetResult α :=
  let cached : Option α :=
    match t? with
    | some t =>
      match alookup t.readCache name with
      | some doc => (decode doc).toOption
      | none => none
    | none => none
  match cached with
  | some v => { result := .ok (some v), tx := t?, effects := [] }
  | none =>
    let eff := NetEffect.getReq name (t?.map (·.transactionId))
    match resp with
    | .okDoc doc =>
      let t?' := t?.map (fun t => t.cacheRead name doc)
      match decode doc with
      | .ok v => { result := .ok (some v), tx := t?', effects := [eff] }
      | .error _ =>
        { result := .error
            (.Other "Failed to convert from Document to requested type."),
          tx := t?', effects := [eff] }
    | .notFound => { result := .ok none, tx := t?, effects := [eff] }
    | .otherStatus _ =>
      { result := .error (.Other "Non-success status code in get"),
        tx := t?, effects := [eff] }

/-- One entry of the remote batch-get answer. -/
inductive BatchGetItem where
  | found (d : Document)
  | missing (name : List String)

def BatchGetItem.itemName : BatchGetItem → List String
  | .found d => d.name
  | .missing n => n

/-- HTTP status of a whole remote answer. -/
inductive RespStatus where
  | okStatus
  | badStatus (code : Nat)
deriving DecidableEq

/-- The cache-first pass of `Firestore::batch_get`: cached names go straight
into the result map, the rest form the network request set, preserving
order. -/
def partitionCached (cache : List (List String × Document)) :
    List (List String) →
      List (List String × Option Document) × List (List String)
  | [] => ([], [])
  | n :: rest =>
    let out := partitionCached cache rest
    match alookup cache n with
    | some doc => ((n, some doc) :: out.1, out.2)
    | none => (out.1, n :: out.2)

/-- Merging one response entry into the result map, as in the source's
response loop. -/
def batchItemInsert (ret : List (List String × Option Document)) :
    BatchGetItem → List (List String × Option Document)
  | .found d => aput ret d.name (some d)
  | .missing m => aput ret m none

/-- Model of `Firestore::batch_get`: filter out cached names, issue one
combined request for the remainder (the response for each requested name is
given by the oracle `respOf`), and merge the response entries into the
result map. -/
def firestoreBatchGet (names : List (List String)) (t? : Option Transaction)
    (respOf : List String → BatchGetItem) (status : RespStatus) :
    Except StorageError (List (List String × Option Document)) ×
      List NetEffect :=
  let parts :=
    match t? with
    | some t => partitionCached t.readCache names
    | none => ([], names)
  let eff := NetEffect.batchGetReq parts.2 (t?.map (·.transactionId))
  match status with
  | .okStatus =>
    (.ok ((parts.2.map respOf).foldl batchItemInsert parts.1), [eff])
  | .badStatus _ =>
    (.error (.Other "Non-success status code in batch_get"), [eff])

/-- Outcome of a client call that can also panic (`unwrap` on a map lookup
that the remote answer did not cover). -/
inductive ClientOutcome (α : Type) where
  | ok (value : α)
  | error (e : StorageError)
  | panicked

/-- The per-id merge loop of `FirestoreClient::batch_get`:
`doc_map.remove(&name).unwrap()` (a missing entry is a panic), then the
decode, a conversion error being logged and treated as a missing document.
With distinct names, `remove` and lookup agree. -/
def mergeEntries {α : Type} (decode : Document → Except String α)
    (docMap : List (List String × Option Document)) :
    List (Nat × List String) → Option (List (Nat × Option α))
  | [] => some []
  | (id, name) :: rest =>
    match alookup docMap name with
    | none => none
    | some doc? =>
      let v : Option α :=
        match doc? with
        | some doc => (decode doc).toOption
        | none => none
      (mergeEntries decode docMap rest).map (fun es => (id, v) :: es)

/-- Model of `FirestoreClient::batch_get`: build the id-to-name map, call
`Firestore::batch_get`, and merge the results back per requested id. -/
def clientBatchGet {α : Type} (decode : Document → Except String α)
    (fc : FirestoreClient) (ids : List Nat) (t? : Option Transaction)
    (respOf : List String → BatchGetItem) (status : RespStatus) :
    ClientOutcome (List (Nat × Option α)) × List NetEffect :=
  let idName : List (Nat × List String) :=
    ids.map (fun id => (id, fc.docName id))
  let out := firestoreBatchGet (idName.map (·.2)) t? respOf status
  match out.1 with
  | .error e => (.error e, out.2)
  | .ok docMap =>
    match mergeEntries decode docMap idName with
    | some entries => (.ok entries, out.2)
    | none => (.panicked, out.2)

/-- One page of the remote list answer. -/
inductive PageResp where
  | okPage (docs : List Document) (nextPageToken : Option String)
  | badStatus (code : Nat)

/-- Model of `Firestore::list`'s pagination loop over the sequence of page
responses: decode failures are logged and dropped from the results; the
loop stops after a page without a continuation token; a non-success page
aborts with an error. -/
def firestoreList {α : Type} (decode : Document → Except String α) :
    List PageResp → Except StorageError (List α)
  | [] => .ok []
  | page :: rest =>
    match page with
    | .okPage docs tok =>
      let converted := docs.filterMap (fun d => (decode d).toOption)
      match tok with
      | some _ =>
        match firestoreList decode rest with
        | .ok more => .ok (converted ++ more)
        | .error e => .error e
      | none => .ok converted
    | .badStatus _ => .error (.Other "Non-success status code for list")

/-! ## Engine errors and the consumer retry policy
(`src/engine/src/error.rs`, `src/engine/src/api.rs`) -/

inductive ErrorCode where
  | CardNotFound
  | CharacterNotFound
  | CharacterPreoccupied
  | CompendiumEmpty
  | DailyAlreadyClaimed
  | DrawStageEmpty
  | DrawStagePopulated
  | IdMismatch
  | InsufficientFunds
  | JobNotFound
  | Other
  | StorageGeneric
  | StorageTransaction
  | UserNotFound
deriving DecidableEq

structure EngineError where
  code : ErrorCode
  src : Option StorageError
deriving DecidableEq

inductive ErrorCategory where
  | BadRequest
  | FailedPrecondition
  | Internal
  | InternalRetryable
deriving DecidableEq

/-- Model of `engine::Error::classify`. -/
def EngineError.classify (e : EngineError) : ErrorCategory :=
  match e.code with
  | .CardNotFound | .CharacterNotFound | .IdMismatch | .JobNotFound
  | .UserNotFound => .BadRequest
  | .CompendiumEmpty | .Other | .StorageGeneric => .Internal
  | .CharacterPreoccupied | .DailyAlreadyClaimed | .DrawStageEmpty
  | .DrawStagePopulated | .InsufficientFunds => .FailedPrecondition
  | .StorageTransaction => .InternalRetryable

/-- Model of `From<storage::Error> for engine::Error`: only the
`Transaction` variant maps to the retryable code. -/
def EngineError.fromStorage (e : StorageError) : EngineError :=
  { code :=
      match e with
      | .Transaction _ => .StorageTransaction
      | _ => .StorageGeneric,
    src := some e }

/-- Result of running the consumer retry loop: the final returned value,
the number of attempts made, and the sleeps (in milliseconds) performed
between attempts. -/
structure RetryResult (α : Type) where
  result : Except EngineError α
  attempts : Nat
  delays : List Nat

/-- Model of the retry loop wrapped around every transactional unit of work
in `engine::Api` (e.g. `delete_user`): the attempt outcomes are given by
the oracle `unit`; on an error classified `InternalRetryable` while retries
remain, sleep 300 ms and run the unit again with one fewer retry; any other
outcome is returned immediately. -/
def retryLoop {α : Type} (unit : Nat → Except EngineError α) :
    Nat → Nat → RetryResult α
  | retries + 1, attempt =>
    match unit attempt with
    | .error e =>
      if e.classify = .InternalRetryable then
        let next := retryLoop unit retries (attempt + 1)
        { result := next.result, attempts := next.attempts + 1,
          delays := 300 :: next.delays }
      else { result := .error e, attempts := 1, delays := [] }
    | .ok a => { result := .ok a, attempts := 1, delays := [] }
  | 0, attempt => { result := unit attempt, attempts := 1, delays := [] }

/-- The loops all start with `let mut retries: usize = 2`. -/
def apiRetryRun {α : Type} (unit : Nat → Except EngineError α) :
    RetryResult α :=
  retryLoop unit 2 0

/-! ## OAuth background refresh delay (`Firestore::new`) -/

/-- Model of `Duration::from_secs(oauth_expires_in - 600)` in the refresh
task: the subtraction is unsigned (`u64`), so a lifetime under 600 seconds
does not produce a duration at all — it underflows (a panic in debug
builds, a wrap to about 5.8e11 years in release builds), modelled as
`none`. -/
def refreshDelaySecs (oauthExpiresIn : Nat) : Option Nat :=
  if 600 ≤ oauthExpiresIn then some (oauthExpiresIn - 600) else none

/-- After a failed renewal the task sets `oauth_expires_in = 10`, intending
a 10-second retry. -/
def refreshFailureExpiresIn : Nat := 10

/-! ## Transaction lifecycle traces (for the rollback-scheduling invariant) -/

/-- The operations application code can perform on one transaction handle
before it is destroyed. -/
inductive TxOp where
  | append (w : Write)
  | commitOp (status : CommitStatus)
  | abortOp

/-- One lifecycle step, discarding the caller-visible result. -/
def stepOp (t : Transaction) : TxOp → Transaction × List NetEffect
  | .append w =>
    match t.appendWrite w with
    | .ok t' => (t', [])
    | .error _ => (t, [])
  | .commitOp status =>
    let out := t.commit status
    (out.2.1, out.2.2)
  | .abortOp => t.abort

def runOps (t : Transaction) : List TxOp → Transaction × List NetEffect
  | [] => (t, [])
  | op :: rest =>
    let out := stepOp t op
    let out' := runOps out.1 rest
    (out'.1, out.2 ++ out'.2)

/-- All requests issued over a transaction's whole lifetime: the operations
performed on the handle, then the drop handler. -/
def lifecycleEffects (t : Transaction) (ops : List TxOp) : List NetEffect :=
  let out := runOps t ops
  out.2 ++ out.1.dropRun

def isRollback : NetEffect → Bool
  | .rollbackReq _ _ => true
  | _ => false

def isCommitReq : NetEffect → Bool
  | .commitReq _ _ => true
  | _ => false

/-! ## Shared concrete fixtures -/

/-- A transaction whose write buffer has already been taken by a prior
commit or abort. -/
def finalizedTx : Transaction :=
  { database := ["db"], readCache := [], transactionId := "txid",
    writes := none }

def sampleClient : FirestoreClient :=
  { parent_path := ["projects", "p", "databases", "(default)", "documents"],
    collection_id := "users" }

/-! ## C1: behavior of a finalized transaction -/

/-- C1 (amended): on a transaction whose write buffer has been taken,
buffering operations (`append_write`, and hence transactional
upsert/delete) return an invalid-state error and change nothing, while a
second `commit` is a warned no-op returning success with no request and a
second `abort` is a warned no-op issuing nothing; all four are total (no
panic). -/
theorem c1_finalized_behavior (t : Transaction) (w : Write)
    (fc : FirestoreClient) (id : Nat) (doc : Document) (status : CommitStatus)
    (h : t.writes = none) :
    t.appendWrite w = .error .InvalidState ∧
    fc.upsertTx id doc t = (.error (.Other "InvalidState"), []) ∧
    fc.deleteTx id t = (.error (.Other "InvalidState"), []) ∧
    t.commit status = (.ok (), t, []) ∧
    t.abort = (t, []) := by
  refine ⟨?_, ?_, ?_, ?_, ?_⟩ <;>
    simp [Transaction.appendWrite, FirestoreClient.upsertTx,
      FirestoreClient.deleteTx, Transaction.commit, Transaction.abort,
      TransactionError.intoStorage, h]

theorem c1_witness :
    finalizedTx.appendWrite (Write.Delete ["x"]) = .error .InvalidState ∧
    sampleClient.upsertTx 3 (Document.new []) finalizedTx
      = (.error (.Other "InvalidState"), []) ∧
    sampleClient.deleteTx 3 finalizedTx
      = (.error (.Other "InvalidState"), []) ∧
    finalizedTx.commit CommitStatus.okStatus = (.ok (), finalizedTx, []) ∧
    finalizedTx.abort = (finalizedTx, []) :=
  c1_finalized_behavior finalizedTx (Write.Delete ["x"]) sampleClient 3
    (Document.new []) CommitStatus.okStatus rfl

/-- C1 (counterexample to the claim as stated): a second `commit` on a
finalized transaction does not return an invalid-state error — it returns
plain success (and a second `abort` returns unit with no error channel at
all). -/
theorem c1_cex :
    (finalizedTx.commit CommitStatus.okStatus).1 = Except.ok () := rfl

/-! ## C3: write buffering inside an open transaction -/

/-- C3: on an open transaction, transactional upsert appends exactly one
replace-operation on the fully-qualified path to the write buffer and
issues no request; transactional delete appends exactly one
delete-operation and issues no request; `commit` sends the accumulated
buffer as the single commit request; `abort` issues only the rollback,
never a commit, so the buffered operations are not applied. -/
theorem c3_write_buffering (fc : FirestoreClient) (id1 id2 : Nat)
    (doc : Document) (t : Transaction) (l : List Write) (st : CommitStatus)
    (h : t.writes = some l) :
    fc.upsertTx id1 doc t =
      (.ok { t with
        writes := some (l ++ [Write.Update { doc with name := fc.docName id1 }]) },
        []) ∧
    fc.deleteTx id2 t =
      (.ok { t with writes := some (l ++ [Write.Delete (fc.docName id2)]) },
        []) ∧
    (t.commit st).2.2 = [NetEffect.commitReq l t.transactionId] ∧
    t.abort =
      ({ t with writes := none },
        [NetEffect.rollbackReq t.database t.transactionId]) := by
  refine ⟨?_, ?_, ?_, ?_⟩ <;>
    simp [FirestoreClient.upsertTx, FirestoreClient.deleteTx,
      Transaction.appendWrite, Transaction.commit, Transaction.commitInternal,
      Transaction.abort, h]

theorem c3_witness :
    (sampleClient.upsertTx 3 (Document.new []) (Transaction.new ["db"] "t1") =
      (.ok { Transaction.new ["db"] "t1" with
        writes := some [Write.Update
          { Document.new [] with name := sampleClient.docName 3 }] }, [])) ∧
    (sampleClient.deleteTx 4 (Transaction.new ["db"] "t1") =
      (.ok { Transaction.new ["db"] "t1" with
        writes := some [Write.Delete (sampleClient.docName 4)] }, [])) ∧
    ((Transaction.new ["db"] "t1").commit CommitStatus.okStatus).2.2
      = [NetEffect.commitReq [] "t1"] ∧
    (Transaction.new ["db"] "t1").abort =
      ({ Transaction.new ["db"] "t1" with writes := none },
        [NetEffect.rollbackReq ["db"] "t1"]) := by
  have h := c3_write_buffering sampleClient 3 4 (Document.new [])
    (Transaction.new ["db"] "t1") [] CommitStatus.okStatus rfl
  simpa using h

/-! ## C7: ReadOnly transactions -/

/-- C7 (amended): `begin(ReadOnly)` pins the snapshot read time (the
current time) in the transaction options, but the returned handle records
no kind: for either kind it is `Transaction::new` with an empty, present
write buffer, and `append_write` accepts buffered writes on it — the
client performs no local rejection of writes on a ReadOnly transaction
(that is left to the remote server at commit). -/
theorem c7_read_only (now : Int) (db : List String) (tid : String)
    (w : Write) (ty : TransactionType) :
    beginTransactionOptions TransactionType.ReadOnly now
      = TransactionOptions.ReadOnly now ∧
    (beginTransaction ty now db tid).2 = Transaction.new db tid ∧
    (Transaction.new db tid).appendWrite w
      = .ok { Transaction.new db tid with writes := some [w] } := by
  refine ⟨rfl, rfl, ?_⟩
  simp [Transaction.new, Transaction.appendWrite]

/-- C7 (counterexample to the claim as stated): an upsert/delete issued
against a ReadOnly transaction does not fail — the write is accepted into
the write buffer. -/
theorem c7_cex :
    (beginTransaction TransactionType.ReadOnly 0 ["db"] "tid").2.appendWrite
        (Write.Delete ["d"])
      = .ok { database := ["db"], readCache := [], transactionId := "tid",
              writes := some [Write.Delete ["d"]] } := rfl

/-! ## C8: OAuth background refresh delay -/

/-- C8: the refresh task sleeps `expires_in - 600` seconds when the
lifetime is at least 600 seconds; but after a refresh failure it sets
`expires_in = 10`, and the next delay computation `10 - 600` underflows in
`u64` instead of producing the 10-second retry the code's own log message
announces. -/
theorem c8_refresh_delay :
    refreshDelaySecs 3600 = some 3000 ∧
    refreshDelaySecs refreshFailureExpiresIn = none ∧
    refreshDelaySecs refreshFailureExpiresIn ≠ some 10 := by
  refine ⟨rfl, rfl, ?_⟩
  decide

/-! ## C10: at most one rollback per transaction lifetime -/

theorem runOps_finalized (ops : List TxOp) (t : Transaction)
    (h : t.writes = none) : runOps t ops = (t, []) := by
  induction ops with
  | nil => rfl
  | cons op rest ih =>
    have hstep : stepOp t op = (t, []) := by
      cases op with
      | append w => simp [stepOp, Transaction.appendWrite, h]
      | commitOp st => simp [stepOp, Transaction.commit, h]
      | abortOp => simp [stepOp, Transaction.abort, h]
    simp [runOps, hstep, ih]

theorem c10_aux (ops : List TxOp) :
    ∀ (t : Transaction) (l : List Write), t.writes = some l →
    (lifecycleEffects t ops).countP isRollback ≤ 1 ∧
    ((lifecycleEffects t ops).any isCommitReq = true →
      (lifecycleEffects t ops).countP isRollback = 0) := by
  induction ops with
  | nil =>
    intro t l h
    simp [lifecycleEffects, runOps, Transaction.dropRun, h, isRollback,
      isCommitReq, List.countP_cons, List.countP_nil]
  | cons op rest ih =>
    intro t l h
    cases op with
    | append w =>
      have hstep : stepOp t (TxOp.append w) =
          ({ t with writes := some (l ++ [w]) }, []) := by
        simp [stepOp, Transaction.appendWrite, h]
      have hrec := ih { t with writes := some (l ++ [w]) } (l ++ [w]) rfl
      simpa [lifecycleEffects, runOps, hstep] using hrec
    | commitOp st =>
      have hstep : stepOp t (TxOp.commitOp st) =
          ({ t with writes := none },
            [NetEffect.commitReq l t.transactionId]) := by
        simp [stepOp, Transaction.commit, Transaction.commitInternal, h]
      have hrest := runOps_finalized rest { t with writes := none } rfl
      simp [lifecycleEffects, runOps, hstep, hrest, Transaction.dropRun,
        isRollback, isCommitReq, List.countP_cons, List.countP_nil]
    | abortOp =>
      have hstep : stepOp t TxOp.abortOp =
          ({ t with writes := none },
            [NetEffect.rollbackReq t.database t.transactionId]) := by
        simp [stepOp, Transaction.abort, h]
      have hrest := runOps_finalized rest { t with writes := none } rfl
      simp [lifecycleEffects, runOps, hstep, hrest, Transaction.dropRun,
        isRollback, isCommitReq, List.countP_cons, List.countP_nil]

/-- C10: over the whole lifetime of a transaction handle (any sequence of
appends, commits and aborts, followed by the drop handler), at most one
rollback request is ever scheduled, and if a commit request was issued
(the buffer was consumed by `commit`) then no rollback is ever scheduled. -/
theorem c10_rollback_once (db : List String) (tid : String)
    (ops : List TxOp) :
    (lifecycleEffects (Transaction.new db tid) ops).countP isRollback ≤ 1 ∧
    ((lifecycleEffects (Transaction.new db tid) ops).any isCommitReq = true →
      (lifecycleEffects (Transaction.new db tid) ops).countP isRollback
        = 0) :=
  c10_aux ops (Transaction.new db tid) [] rfl

/-! ## C2: consumer-side retry policy -/

/-- C2: a commit answered with the write-conflict status produces the
`Transaction` storage error, whose engine classification is
`InternalRetryable`; the retry loop around a unit of work returns a
non-retryable error immediately after one attempt with no delay, and on
retryable errors sleeps a fixed 300 ms and repeats the whole unit, up to
the bound of 2 retries (three attempts in total), after which the final
attempt's outcome is returned. -/
theorem c2_retry_policy {α : Type} (unit : Nat → Except EngineError α)
    (e e1 : EngineError) (tid : String) (ws : List Write) :
    (Transaction.commitInternal tid ws CommitStatus.conflict).1
      = Except.error
          (StorageError.Transaction "Document contention, try again later") ∧
    (EngineError.fromStorage
        (StorageError.Transaction "Document contention, try again later")).classify
      = ErrorCategory.InternalRetryable ∧
    (unit 0 = .error e → ¬ e.classify = .InternalRetryable →
      apiRetryRun unit
        = { result := .error e, attempts := 1, delays := [] }) ∧
    (unit 0 = .error e → e.classify = .InternalRetryable →
      unit 1 = .error e1 → e1.classify = .InternalRetryable →
      apiRetryRun unit
        = { result := unit 2, attempts := 3, delays := [300, 300] }) := by
  refine ⟨rfl, rfl, ?_, ?_⟩
  · intro h0 hc
    simp [apiRetryRun, retryLoop, h0, hc]
  · intro h0 hc0 h1 hc1
    simp [apiRetryRun, retryLoop, h0, hc0, h1, hc1]

/-- The retryable contention error as the engine sees it. -/
def retryableErr : EngineError :=
  EngineError.fromStorage
    (StorageError.Transaction "Document contention, try again later")

/-- A unit of work whose commit is answered with a conflict every time. -/
def alwaysConflict : Nat → Except EngineError Unit :=
  fun _ => Except.error retryableErr

theorem c2_witness :
    apiRetryRun alwaysConflict
      = { result := Except.error retryableErr, attempts := 3,
          delays := [300, 300] } := by
  have h := (c2_retry_policy alwaysConflict retryableErr retryableErr "t"
    []).2.2.2 rfl rfl rfl rfl
  simpa [alwaysConflict] using h

/-! ## C4: transaction read cache -/

theorem firestoreGet_cached_hit {α : Type} (decode : Document → Except String α)
    (t : Transaction) (name : List String) (doc : Document)
    (resp' : GetResponse) (v : α) (hc : alookup t.readCache name = some doc)
    (hdec : decode doc = .ok v) :
    firestoreGet decode name (some t) resp'
      = { result := .ok (some v), tx := some t, effects := [] } := by
  simp [firestoreGet, hc, hdec, Except.toOption]

theorem cacheRead_lookup (t : Transaction) (name : List String)
    (doc : Document) :
    alookup (t.cacheRead name doc).readCache name = some doc := by
  simp [Transaction.cacheRead, alookup_aput]

/-- C4 (amended): within one transaction, if the first `get` for a name
found the document and decoded it to `v`, then a second `get` for the same
name is served from the read cache: it issues no network request, and
returns the identical decoded value; the two calls together issue at most
one network read.  (If the document is missing, nothing is cached and each
`get` issues its own read — see the counterexample.) -/
theorem c4_read_cache {α : Type} (decode : Document → Except String α)
    (t : Transaction) (name : List String) (resp resp' : GetResponse) (v : α)
    (h : (firestoreGet decode name (some t) resp).result
      = .ok (some v)) :
    firestoreGet decode name (firestoreGet decode name (some t) resp).tx resp'
      = { result := .ok (some v),
          tx := (firestoreGet decode name (some t) resp).tx,
          effects := [] } ∧
    (firestoreGet decode name (some t) resp).effects.length +
      (firestoreGet decode name (firestoreGet decode name (some t) resp).tx
        resp').effects.length ≤ 1 := by
  cases hc : alookup t.readCache name with
  | some doc =>
    cases hdec : decode doc with
    | ok w =>
      have h1 := firestoreGet_cached_hit decode t name doc resp w hc hdec
      rw [h1] at h ⊢
      have hv : w = v := by simpa using h
      subst hv
      have h2 := firestoreGet_cached_hit decode t name doc resp' w hc hdec
      simp [h2, h1]
    | error msg =>
      cases resp with
      | okDoc doc2 =>
        cases hdec2 : decode doc2 with
        | ok w =>
          have h1 : firestoreGet decode name (some t) (GetResponse.okDoc doc2)
              = { result := .ok (some w),
                  tx := some (t.cacheRead name doc2),
                  effects := [NetEffect.getReq name (some t.transactionId)] } := by
            simp [firestoreGet, hc, hdec, hdec2, Except.toOption]
          rw [h1] at h ⊢
          have hv : w = v := by simpa using h
          subst hv
          have h2 := firestoreGet_cached_hit decode (t.cacheRead name doc2)
            name doc2 resp' w (cacheRead_lookup t name doc2) hdec2
          exact ⟨by simpa using h2, by simp [h2]⟩
        | error msg2 =>
          exfalso
          simp [firestoreGet, hc, hdec, hdec2, Except.toOption] at h
      | notFound =>
        exfalso
        simp [firestoreGet, hc, hdec, Except.toOption] at h
      | otherStatus code =>
        exfalso
        simp [firestoreGet, hc, hdec, Except.toOption] at h
  | none =>
    cases resp with
    | okDoc doc2 =>
      cases hdec2 : decode doc2 with
      | ok w =>
        have h1 : firestoreGet decode name (some t) (GetResponse.okDoc doc2)
            = { result := .ok (some w),
                tx := some (t.cacheRead name doc2),
                effects := [NetEffect.getReq name (some t.transactionId)] } := by
          simp [firestoreGet, hc, hdec2, Except.toOption]
        rw [h1] at h ⊢
        have hv : w = v := by simpa using h
        subst hv
        have h2 := firestoreGet_cached_hit decode (t.cacheRead name doc2)
          name doc2 resp' w (cacheRead_lookup t name doc2) hdec2
        exact ⟨by simpa using h2, by simp [h2]⟩
      | error msg2 =>
        exfalso
        simp [firestoreGet, hc, hdec2, Except.toOption] at h
    | notFound =>
      exfalso
      simp [firestoreGet, hc, Except.toOption] at h
    | otherStatus code =>
      exfalso
      simp [firestoreGet, hc, Except.toOption] at h

def c4Decode : Document → Except String Nat := fun _ => Except.ok 0

def c4Tx : Transaction := Transaction.new ["db"] "t1"

def c4Name : List String := ["db", "users", "7"]

theorem c4_witness :
    firestoreGet c4Decode c4Name
        (firestoreGet c4Decode c4Name (some c4Tx)
          (GetResponse.okDoc (Document.new []))).tx GetResponse.notFound
      = { result := .ok (some 0),
          tx := (firestoreGet c4Decode c4Name (some c4Tx)
            (GetResponse.okDoc (Document.new []))).tx,
          effects := [] } ∧
    (firestoreGet c4Decode c4Name (some c4Tx)
        (GetResponse.okDoc (Document.new []))).effects.length +
      (firestoreGet c4Decode c4Name
        (firestoreGet c4Decode c4Name (some c4Tx)
          (GetResponse.okDoc (Document.new []))).tx
        GetResponse.notFound).effects.length ≤ 1 :=
  c4_read_cache c4Decode c4Tx c4Name (GetResponse.okDoc (Document.new []))
    GetResponse.notFound 0 rfl

def c4First : GetResult Nat :=
  firestoreGet c4Decode c4Name (some c4Tx) GetResponse.notFound

def c4Second : GetResult Nat :=
  firestoreGet c4Decode c4Name c4First.tx GetResponse.notFound

/-- C4 (counterexample to the claim as stated): for a missing document,
nothing is cached, so two `get` calls for the same id within one
transaction issue two network reads, not at most one. -/
theorem c4_cex :
    c4First.effects.length + c4Second.effects.length = 2 ∧
    c4First.result = .ok none ∧ c4Second.result = .ok none :=
  ⟨rfl, rfl, rfl⟩

/-! ## C6: decode and transport error handling -/

/-- C6 (amended): `get` surfaces a decode failure of a fetched document as
an error and represents a missing document as `None`; transport errors
(non-success statuses) are surfaced as errors by `get`, `batch_get` and
`list`.  However `list` silently drops undecodable documents from its
results, and `batch_get` maps an undecodable found document to an absent
value (see the counterexample); both only log. -/
theorem c6_error_surfacing {α : Type} (decode : Document → Except String α)
    (name : List String) (doc : Document) (msg : String) (code : Nat)
    (names : List (List String)) (t? : Option Transaction)
    (respOf : List String → BatchGetItem) (docs : List Document)
    (rest : List PageResp) (hdec : decode doc = .error msg) :
    (firestoreGet decode name none (GetResponse.okDoc doc)).result
      = .error (.Other "Failed to convert from Document to requested type.") ∧
    (firestoreGet decode name none GetResponse.notFound).result = .ok none ∧
    (firestoreGet decode name none (GetResponse.otherStatus code)).result
      = .error (.Other "Non-success status code in get") ∧
    (firestoreBatchGet names t? respOf (RespStatus.badStatus code)).1
      = .error (.Other "Non-success status code in batch_get") ∧
    firestoreList decode [PageResp.okPage docs none]
      = .ok (docs.filterMap (fun d => (decode d).toOption)) ∧
    firestoreList decode (PageResp.badStatus code :: rest)
      = .error (.Other "Non-success status code for list") := by
  refine ⟨?_, rfl, rfl, ?_, rfl, rfl⟩
  · simp [firestoreGet, hdec]
  · simp [firestoreBatchGet]

def c6Decode : Document → Except String Nat := fun _ => Except.error "bad shape"

def c6RespOf : List String → BatchGetItem :=
  fun n => BatchGetItem.found { name := n, fields := [] }

theorem c6_witness :
    (firestoreGet c6Decode c4Name none
        (GetResponse.okDoc (Document.new []))).result
      = .error (.Other "Failed to convert from Document to requested type.") ∧
    (firestoreGet c6Decode c4Name none GetResponse.notFound).result
      = .ok none ∧
    (firestoreGet c6Decode c4Name none (GetResponse.otherStatus 500)).result
      = .error (.Other "Non-success status code in get") ∧
    (firestoreBatchGet [] none c6RespOf (RespStatus.badStatus 500)).1
      = .error (.Other "Non-success status code in batch_get") ∧
    firestoreList c6Decode [PageResp.okPage [] none]
      = .ok ([].filterMap (fun d => (c6Decode d).toOption)) ∧
    firestoreList c6Decode (PageResp.badStatus 500 :: [])
      = .error (.Other "Non-success status code for list") :=
  c6_error_surfacing c6Decode c4Name (Document.new []) "bad shape" 500 []
    none c6RespOf [] [] rfl

/-- C6 (counterexample to the claim as stated): `batch_get` does swallow a
decode error — a document the store found, which fails to convert to the
requested type, is returned as an absent value (`None`), indistinguishable
from a missing document. -/
theorem c6_cex :
    clientBatchGet c6Decode sampleClient [5] none c6RespOf RespStatus.okStatus
      = (.ok [(5, none)],
          [NetEffect.batchGetReq [sampleClient.docName 5] none]) := rfl

/-! ## C5: codec round-trip -/

/-- The `i32` range conditions that `str::parse::<i32>` imposes on the
three stat fields. -/
def StatsI.i32Range (s : StatsI) : Prop :=
  (-(2 ^ 31) ≤ s.physical ∧ s.physical < 2 ^ 31) ∧
  (-(2 ^ 31) ≤ s.mental ∧ s.mental < 2 ^ 31) ∧
  (-(2 ^ 31) ≤ s.tactical ∧ s.tactical < 2 ^ 31)

theorem getLast?_path (p : List String) (c s : String) :
    (p ++ [c, s]).getLast? = some s := by
  have h : p ++ [c, s] = (p ++ [c]) ++ [s] := by simp
  rw [h, List.getLast?_concat]

theorem statsI_roundtrip (s : StatsI) (h : s.i32Range) :
    StatsI.tryFromField s.toField = .ok s := by
  obtain ⟨sp, sm, st⟩ := s
  obtain ⟨⟨h1, h2⟩, ⟨h3, h4⟩, ⟨h5, h6⟩⟩ := h
  have hpm : ("physical" : String) ≠ "mental" := by decide
  have hpt : ("physical" : String) ≠ "tactical" := by decide
  have hmt : ("mental" : String) ≠ "tactical" := by decide
  simp [StatsI.toField, StatsI.tryFromField, statIntField?, alookup, hpm, hpt,
    hmt, i32Parse_intToString _ h1 h2, i32Parse_intToString _ h3 h4,
    i32Parse_intToString _ h5 h6]

theorem statsF_roundtrip (s : StatsF) :
    StatsF.tryFromField s.toField = .ok s := by
  obtain ⟨sp, sm, st⟩ := s
  have hpm : ("physical" : String) ≠ "mental" := by decide
  have hpt : ("physical" : String) ≠ "tactical" := by decide
  have hmt : ("mental" : String) ≠ "tactical" := by decide
  simp [StatsF.toField, StatsF.tryFromField, statDoubleField?, alookup, hpm,
    hpt, hmt]

theorem user_roundtrip (u : User) (p : List String) (c : String)
    (hu : u.currency < 2 ^ 32) :
    User.fromDocument { u.toDocument with name := p ++ [c, natToString u.id] }
      = .ok u := by
  obtain ⟨uid, ucur, udaily, ustaged⟩ := u
  have hcd : ("currency" : String) ≠ "daily_last_claimed" := by decide
  have hcs : ("currency" : String) ≠ "staged_card" := by decide
  have hds : ("daily_last_claimed" : String) ≠ "staged_card" := by decide
  cases ustaged with
  | none =>
    simp [User.fromDocument, User.toDocument, Document.new, getLast?_path,
      alookup, hcd, hcs, hds, u32Parse_natToString _ hu,
      stringToNat_natToString]
  | some sc =>
    simp [User.fromDocument, User.toDocument, Document.new, getLast?_path,
      alookup, hcd, hcs, hds, u32Parse_natToString _ hu,
      stringToNat_natToString]

theorem card_roundtrip (c : Card) (p : List String) (col : String)
    (h : c.stat_base.i32Range) :
    Card.fromDocument { c.toDocument with name := p ++ [col, natToString c.id] }
      = .ok c := by
  obtain ⟨cid, cname, cdesc, curi, cbase, cmult⟩ := c
  have f1 : ("name" : String) ≠ "description" := by decide
  have f2 : ("name" : String) ≠ "image_uri" := by decide
  have f3 : ("name" : String) ≠ "stat_base" := by decide
  have f4 : ("name" : String) ≠ "stat_multiplier" := by decide
  have f5 : ("description" : String) ≠ "image_uri" := by decide
  have f6 : ("description" : String) ≠ "stat_base" := by decide
  have f7 : ("description" : String) ≠ "stat_multiplier" := by decide
  have f8 : ("image_uri" : String) ≠ "stat_base" := by decide
  have f9 : ("image_uri" : String) ≠ "stat_multiplier" := by decide
  have f10 : ("stat_base" : String) ≠ "stat_multiplier" := by decide
  simp [Card.fromDocument, Card.toDocument, Document.new, Document.extractId?,
    Document.extractString, DocumentField.extractString, getLast?_path,
    alookup, f1, f2, f3, f4, f5, f6, f7, f8, f9, f10,
    stringToNat_natToString, statsI_roundtrip _ h, statsF_roundtrip,
    Bind.bind, Except.bind, Pure.pure, Except.pure]

/-- C5 (amended): the codec round-trips once the document's resource name
is set to a path ending in the value's id — which is exactly what the
client's upsert (and the repository's own unit tests) do before
decoding — for every `User` (with `u32` currency) and every `Card` (with
`i32`-ranged base stats), including integers crossing the decimal-string
wire convention; and a double the server collapsed into an integer field is
recovered by the codec's `extract_double`.  As literally composed, without
setting the name, decoding cannot recover the id (see the
counterexample). -/
theorem c5_codec_roundtrip (u : User) (c : Card) (pu pc : List String)
    (cu cc : String) (i : Int) (hu : u.currency < 2 ^ 32)
    (hc : c.stat_base.i32Range) (hi1 : -(2 ^ 31) ≤ i) (hi2 : i < 2 ^ 31) :
    User.fromDocument
        { u.toDocument with name := pu ++ [cu, natToString u.id] }
      = .ok u ∧
    Card.fromDocument
        { c.toDocument with name := pc ++ [cc, natToString c.id] }
      = .ok c ∧
    DocumentField.extractDouble (.IntegerValue (intToString i))
      = .ok (i : Rat) := by
  refine ⟨user_roundtrip u pu cu hu, card_roundtrip c pc cc hc, ?_⟩
  simp [DocumentField.extractDouble, i32Parse_intToString i hi1 hi2]

def c5UserW : User :=
  { id := 7, currency := 500, daily_last_claimed := 123, staged_card := some 9 }

def c5CardW : Card :=
  { id := 3, name := "card", description := "desc", image_uri := "uri",
    stat_base := ⟨24, 12, 19⟩, stat_multiplier := ⟨2, 9, 1⟩ }

theorem c5_witness :
    User.fromDocument
        { c5UserW.toDocument with
          name := ["p"] ++ ["users", natToString c5UserW.id] }
      = .ok c5UserW ∧
    Card.fromDocument
        { c5CardW.toDocument with
          name := ["q"] ++ ["cards", natToString c5CardW.id] }
      = .ok c5CardW ∧
    DocumentField.extractDouble (.IntegerValue (intToString (-5)))
      = .ok ((-5 : Int) : Rat) :=
  c5_codec_roundtrip c5UserW c5CardW ["p"] ["q"] "users" "cards" (-5)
    (by norm_num [c5UserW]) (by norm_num [c5CardW, StatsI.i32Range])
    (by norm_num) (by norm_num)

def c5User : User :=
  { id := 7, currency := 5, daily_last_claimed := 0, staged_card := none }

def c5Card : Card :=
  { id := 3, name := "n", description := "d", image_uri := "u",
    stat_base := ⟨1, 2, 3⟩, stat_multiplier := ⟨1, 2, 3⟩ }

/-- C5 (counterexample to the claim as stated): the literal composition
`from_document(to_document(x))` does not yield `x`: `to_document` leaves
the resource name empty (the id lives only in the name, which the client
sets at upsert time), so the `User` decode panics on the id parse and the
`Card` decode returns an error. -/
theorem c5_cex :
    User.fromDocument (User.toDocument c5User) = DecodeOutcome.panicked ∧
    Card.fromDocument (Card.toDocument c5Card)
      = .error "Unable to convert id to a uuid" :=
  ⟨rfl, rfl⟩

/-! ## C9: batch_get -/

/-- The document carried by one batch-get response entry: the found
document, or nothing for a missing name. -/
def BatchGetItem.itemValue : BatchGetItem → Option Document
  | .found d => some d
  | .missing _ => none

theorem natToString_injective : Function.Injective natToString := by
  intro a b h
  have ha := stringToNat_natToString a
  rw [h, stringToNat_natToString b] at ha
  exact (Option.some.inj ha).symm

theorem docName_injective (fc : FirestoreClient) :
    Function.Injective fc.docName := by
  intro a b h
  simp only [FirestoreClient.docName, List.append_cancel_left_eq,
    List.cons.injEq] at h
  exact natToString_injective h.2.1

theorem partitionCached_snd (cache : List (List String × Document)) :
    ∀ ns : List (List String),
    (partitionCached cache ns).2
      = ns.filter (fun n => (alookup cache n).isNone) := by
  intro ns
  induction ns with
  | nil => rfl
  | cons n rest ih =>
    cases hc : alookup cache n with
    | some doc => simp [partitionCached, hc, ih, List.filter_cons]
    | none => simp [partitionCached, hc, ih, List.filter_cons]

theorem partitionCached_fst_cached (cache : List (List String × Document))
    (n : List String) (doc : Document) (hc : alookup cache n = some doc) :
    ∀ ns : List (List String), n ∈ ns →
    alookup (partitionCached cache ns).1 n = some (some doc) := by
  intro ns
  induction ns with
  | nil => intro h; cases h
  | cons m rest ih =>
    intro hmem
    by_cases hmn : m = n
    · subst hmn
      simp [partitionCached, hc, alookup]
    · have hnrest : n ∈ rest := by
        rcases List.mem_cons.mp hmem with h | h
        · exact absurd h.symm hmn
        · exact h
      cases hcm : alookup cache m with
      | some dm => simp [partitionCached, hcm, alookup, hmn, ih hnrest]
      | none => simp [partitionCached, hcm, ih hnrest]

theorem partitionCached_fst_uncached (cache : List (List String × Document))
    (n : List String) (hn : alookup cache n = none) :
    ∀ ns : List (List String),
    alookup (partitionCached cache ns).1 n = none := by
  intro ns
  induction ns with
  | nil => rfl
  | cons m rest ih =>
    by_cases hmn : m = n
    · subst hmn
      simp [partitionCached, hn, ih]
    · cases hcm : alookup cache m with
      | some dm => simp [partitionCached, hcm, alookup, hmn, ih]
      | none => simp [partitionCached, hcm, ih]

theorem foldl_batchItemInsert_notmem (n : List String) :
    ∀ (items : List BatchGetItem)
      (m : List (List String × Option Document)),
    (∀ it ∈ items, it.itemName ≠ n) →
    alookup (items.foldl batchItemInsert m) n = alookup m n := by
  intro items
  induction items with
  | nil => intro m _; rfl
  | cons it rest ih =>
    intro m h
    have h1 : it.itemName ≠ n := h it (List.mem_cons_self it rest)
    have h2 : ∀ x ∈ rest, BatchGetItem.itemName x ≠ n :=
      fun x hx => h x (List.mem_cons_of_mem it hx)
    rw [List.foldl_cons, ih _ h2]
    cases it with
    | found d =>
      simp only [BatchGetItem.itemName] at h1
      simp [batchItemInsert, alookup_aput, h1]
    | missing mm =>
      simp only [BatchGetItem.itemName] at h1
      simp [batchItemInsert, alookup_aput, h1]

theorem foldl_batchItemInsert_mem (respOf : List String → BatchGetItem)
    (hname : ∀ x, (respOf x).itemName = x) (n : List String) :
    ∀ (fl : List (List String)) (m : List (List String × Option Document)),
    fl.Nodup → n ∈ fl →
    alookup ((fl.map respOf).foldl batchItemInsert m) n
      = some ((respOf n).itemValue) := by
  intro fl
  induction fl with
  | nil => intro m _ h; cases h
  | cons f rest ih =>
    intro m hnd hmem
    rw [List.map_cons, List.foldl_cons]
    by_cases hfn : f = n
    · have hnrest : n ∉ rest := hfn ▸ (List.nodup_cons.mp hnd).1
      have hnot : ∀ it ∈ rest.map respOf, it.itemName ≠ n := by
        intro it hit
        rcases List.mem_map.mp hit with ⟨x, hx, rfl⟩
        rw [hname]
        intro hxe
        exact hnrest (hxe ▸ hx)
      rw [hfn, foldl_batchItemInsert_notmem n _ _ hnot]
      have hkey := hname n
      cases hr : respOf n with
      | found d =>
        rw [hr] at hkey
        simp only [BatchGetItem.itemName] at hkey
        simp [batchItemInsert, alookup_aput, hkey, BatchGetItem.itemValue]
      | missing mm =>
        rw [hr] at hkey
        simp only [BatchGetItem.itemName] at hkey
        simp [batchItemInsert, alookup_aput, hkey, BatchGetItem.itemValue]
    · have hnrest : n ∈ rest := by
        rcases List.mem_cons.mp hmem with h | h
        · exact absurd h.symm hfn
        · exact h
      exact ih _ (List.nodup_cons.mp hnd).2 hnrest

theorem firestoreBatchGet_lookup {cache : List (List String × Document)}
    (respOf : List String → BatchGetItem)
    (hname : ∀ x, (respOf x).itemName = x) (names : List (List String))
    (hnodup : names.Nodup) (n : List String) (hn : n ∈ names) :
    alookup
        (((partitionCached cache names).2.map respOf).foldl batchItemInsert
          (partitionCached cache names).1) n
      = some (match alookup cache n with
              | some doc => some doc
              | none => (respOf n).itemValue) := by
  cases hc : alookup cache n with
  | some doc =>
    have hnot : ∀ it ∈ (partitionCached cache names).2.map respOf,
        it.itemName ≠ n := by
      intro it hit
      rcases List.mem_map.mp hit with ⟨x, hx, rfl⟩
      rw [hname]
      intro hxe
      subst hxe
      rw [partitionCached_snd] at hx
      have := List.of_mem_filter hx
      simp [hc] at this
    rw [foldl_batchItemInsert_notmem n _ _ hnot,
      partitionCached_fst_cached cache n doc hc names hn]
  | none =>
    have hmem2 : n ∈ (partitionCached cache names).2 := by
      rw [partitionCached_snd]
      exact List.mem_filter.mpr ⟨hn, by simp [hc]⟩
    have hnd2 : (partitionCached cache names).2.Nodup := by
      rw [partitionCached_snd]
      exact hnodup.filter _
    rw [foldl_batchItemInsert_mem respOf hname n _ _ hnd2 hmem2]

theorem mergeEntries_total {α : Type} (decode : Document → Except String α)
    (docMap : List (List String × Option Document)) :
    ∀ idName : List (Nat × List String),
    (∀ p ∈ idName, (alookup docMap p.2).isSome) →
    mergeEntries decode docMap idName
      = some (idName.map (fun p =>
          (p.1, match alookup docMap p.2 with
                | some (some doc) => (decode doc).toOption
                | _ => none))) := by
  intro idName
  induction idName with
  | nil => intro _; rfl
  | cons p rest ih =>
    intro h
    obtain ⟨id, nm⟩ := p
    have h1 : (alookup docMap nm).isSome :=
      h (id, nm) (List.mem_cons_self _ _)
    have h2 : ∀ q ∈ rest, (alookup docMap q.2).isSome :=
      fun q hq => h q (List.mem_cons_of_mem _ hq)
    obtain ⟨doc?, hd⟩ := Option.isSome_iff_exists.mp h1
    cases doc? with
    | some doc => simp [mergeEntries, hd, ih h2]
    | none => simp [mergeEntries, hd, ih h2]

theorem alookup_map_self {β : Type} (f : Nat → β) :
    ∀ (ids : List Nat) (id : Nat), id ∈ ids →
    alookup (ids.map (fun i => (i, f i))) id = some (f id) := by
  intro ids
  induction ids with
  | nil => intro id h; cases h
  | cons i rest ih =>
    intro id hmem
    by_cases hi : i = id
    · subst hi; simp [alookup]
    · have : id ∈ rest := by
        rcases List.mem_cons.mp hmem with h | h
        · exact absurd h.symm hi
        · exact h
      simp [alookup, hi, ih id this]

/-- What the claim says each requested id maps to: the decode of the cached
document if the id was cached, the decode of the found document if the
store found it, and an absent value if the store reports it missing. -/
def c9Expected {α : Type} (decode : Document → Except String α)
    (fc : FirestoreClient) (cache : List (List String × Document))
    (respOf : List String → BatchGetItem) (id : Nat) : Option α :=
  match alookup cache (fc.docName id) with
  | some doc => (decode doc).toOption
  | none =>
    match respOf (fc.docName id) with
    | .found d => (decode d).toOption
    | .missing _ => none

/-- C9: for a transactional `batch_get` whose remote answer covers each
requested name (`hname`), ids already in the read cache are removed from
the network request set, exactly one combined remote call is issued for the
remainder, and the call returns a map with exactly one entry per requested
id, in order — the decoded cached or found document, or an absent value for
a document the store reports missing (see `c9Expected`). -/
theorem c9_batch_get {α : Type} (decode : Document → Except String α)
    (fc : FirestoreClient) (ids : List Nat) (t : Transaction)
    (respOf : List String → BatchGetItem) (hnd : ids.Nodup)
    (hname : ∀ x, (respOf x).itemName = x) :
    (clientBatchGet decode fc ids (some t) respOf RespStatus.okStatus).2
      = [NetEffect.batchGetReq
          ((ids.map fc.docName).filter
            (fun n => (alookup t.readCache n).isNone))
          (some t.transactionId)] ∧
    ∃ entries,
      (clientBatchGet decode fc ids (some t) respOf RespStatus.okStatus).1
        = .ok entries ∧
      entries.map Prod.fst = ids ∧
      ∀ id ∈ ids, alookup entries id
        = some (c9Expected decode fc t.readCache respOf id) := by
  have hnodupNames : (ids.map fc.docName).Nodup :=
    hnd.map (docName_injective fc)
  have hns : (ids.map (fun id => (id, fc.docName id))).map
      (fun p => p.2) = ids.map fc.docName := by
    simp [List.map_map, Function.comp]
  have hlook : ∀ id ∈ ids,
      alookup
          (((partitionCached t.readCache (ids.map fc.docName)).2.map
            respOf).foldl batchItemInsert
            (partitionCached t.readCache (ids.map fc.docName)).1)
          (fc.docName id)
        = some (match alookup t.readCache (fc.docName id) with
                | some doc => some doc
                | none => (respOf (fc.docName id)).itemValue) := by
    intro id hid
    exact firestoreBatchGet_lookup respOf hname _ hnodupNames _
      (List.mem_map_of_mem _ hid)
  have hsome : ∀ p ∈ ids.map (fun id => (id, fc.docName id)),
      (alookup
        (((partitionCached t.readCache (ids.map fc.docName)).2.map
          respOf).foldl batchItemInsert
          (partitionCached t.readCache (ids.map fc.docName)).1)
        p.2).isSome := by
    intro p hp
    rcases List.mem_map.mp hp with ⟨id, hid, rfl⟩
    rw [hlook id hid]
    rfl
  have hmerge := mergeEntries_total decode
    (((partitionCached t.readCache (ids.map fc.docName)).2.map
      respOf).foldl batchItemInsert
      (partitionCached t.readCache (ids.map fc.docName)).1)
    (ids.map (fun id => (id, fc.docName id))) hsome
  have hcbg : clientBatchGet decode fc ids (some t) respOf RespStatus.okStatus
      = (.ok ((ids.map (fun id => (id, fc.docName id))).map (fun p =>
          (p.1, match alookup
              (((partitionCached t.readCache (ids.map fc.docName)).2.map
                respOf).foldl batchItemInsert
                (partitionCached t.readCache (ids.map fc.docName)).1) p.2 with
            | some (some doc) => (decode doc).toOption
            | _ => none))),
          [NetEffect.batchGetReq
            (partitionCached t.readCache (ids.map fc.docName)).2
            (some t.transactionId)]) := by
    simp only [clientBatchGet, firestoreBatchGet, hns]
    rw [hmerge]
    rfl
  refine ⟨?_, ?_⟩
  · rw [hcbg]
    simp [partitionCached_snd]
  · refine ⟨(ids.map (fun id => (id, fc.docName id))).map (fun p =>
        (p.1, match alookup
            (((partitionCached t.readCache (ids.map fc.docName)).2.map
              respOf).foldl batchItemInsert
              (partitionCached t.readCache (ids.map fc.docName)).1) p.2 with
          | some (some doc) => (decode doc).toOption
          | _ => none)), ?_, ?_, ?_⟩
    · rw [hcbg]
    · simp only [List.map_map]
      show List.map (fun i : Nat => i) ids = ids
      simp
    · intro id hid
      have hmaps : (ids.map (fun id => (id, fc.docName id))).map (fun p =>
          (p.1, match alookup
              (((partitionCached t.readCache (ids.map fc.docName)).2.map
                respOf).foldl batchItemInsert
                (partitionCached t.readCache (ids.map fc.docName)).1) p.2 with
            | some (some doc) => (decode doc).toOption
            | _ => none))
          = ids.map (fun i => (i, match alookup
              (((partitionCached t.readCache (ids.map fc.docName)).2.map
                respOf).foldl batchItemInsert
                (partitionCached t.readCache (ids.map fc.docName)).1)
              (fc.docName i) with
            | some (some doc) => (decode doc).toOption
            | _ => none)) := by
        simp [List.map_map, Function.comp]
      rw [hmaps, alookup_map_self _ ids id hid, hlook id hid]
      cases hc : alookup t.readCache (fc.docName id) with
      | some doc => simp [c9Expected, hc]
      | none =>
        cases hr : respOf (fc.docName id) with
        | found d => simp [c9Expected, hc, hr, BatchGetItem.itemValue]
        | missing mm => simp [c9Expected, hc, hr, BatchGetItem.itemValue]

/-- A remote store that reports every requested name as missing. -/
def c9RespOf : List String → BatchGetItem := fun n => BatchGetItem.missing n

/-- A transaction whose read cache already holds the document for id 1. -/
def c9Tx : Transaction :=
  { Transaction.new ["db"] "t9" with
    readCache := [(sampleClient.docName 1, Document.new [])] }

theorem c9_witness :
    (clientBatchGet c4Decode sampleClient [1, 2] (some c9Tx) c9RespOf
        RespStatus.okStatus).2
      = [NetEffect.batchGetReq
          (([1, 2].map sampleClient.docName).filter
            (fun n => (alookup c9Tx.readCache n).isNone))
          (some c9Tx.transactionId)] ∧
    ∃ entries,
      (clientBatchGet c4Decode sampleClient [1, 2] (some c9Tx) c9RespOf
          RespStatus.okStatus).1
        = .ok entries ∧
      entries.map Prod.fst = [1, 2] ∧
      ∀ id ∈ [1, 2], alookup entries id
        = some (c9Expected c4Decode sampleClient c9Tx.readCache c9RespOf id) :=
  c9_batch_get c4Decode sampleClient [1, 2] c9Tx c9RespOf (by decide)
    (fun _ => rfl)
